import Mathlib

/- Verification of the murdock-ng dispatch core (src/murdock/murdock.py).

   The embedding models the Murdock class as a pure state machine.  Job
   objects live in a heap (the jobs field, keyed by uid); the WaitingSet
   (queued), the RunningSet slot array (running), the two worker lanes
   (queue and fasttrack_queue) and the observer list (clients) hold uids.
   Calls to the external adapters (hosting status callbacks, execution
   stop, persistence, websocket close, observer reload) are recorded in a
   trace of ExtCall events.  Wall clock readings are abstracted to 0. -/

/- Regex engine: models Python re.match as used by Murdock.handle_ref.
   re.match anchors at the start of the subject only, so it succeeds
   exactly when some prefix of the subject matches the whole pattern.
   The engine supports the literal / dot / star fragment of the syntax;
   a pattern using other metacharacters is treated as non-matching. -/

inductive RAtom | lit (c : Char) | dot
deriving DecidableEq

inductive RItem | once (a : RAtom) | star (a : RAtom)
deriving DecidableEq

def atom_match : RAtom → Char → Bool
  | RAtom.lit c, d => c == d
  | RAtom.dot, _ => true

/-- Matching anchored at the start of the subject only: the pattern may
consume any prefix of the subject, trailing input is accepted. -/
def match_items : List RItem → List Char → Bool
  | [], _ => true
  | RItem.once _ :: _, [] => false
  | RItem.once a :: rest, c :: cs => atom_match a c && match_items rest cs
  | RItem.star _ :: rest, [] => match_items rest []
  | RItem.star a :: rest, c :: cs =>
      match_items rest (c :: cs) || (atom_match a c && match_items (RItem.star a :: rest) cs)
termination_by items s => (s.length, items.length)

/-- Matching that must consume the whole subject. -/
def match_items_full : List RItem → List Char → Bool
  | [], s => s.isEmpty
  | RItem.once _ :: _, [] => false
  | RItem.once a :: rest, c :: cs => atom_match a c && match_items_full rest cs
  | RItem.star _ :: rest, [] => match_items_full rest []
  | RItem.star a :: rest, c :: cs =>
      match_items_full rest (c :: cs) || (atom_match a c && match_items_full (RItem.star a :: rest) cs)
termination_by items s => (s.length, items.length)

/-- Start-anchored matching succeeds exactly when the pattern fully
matches some prefix of the subject. -/
theorem match_items_eq_exists (items : List RItem) (s : List Char) :
    match_items items s = true ↔
      ∃ p q, s = p ++ q ∧ match_items_full items p = true := by
  induction items, s using match_items.induct with
  | case1 s =>
    rw [match_items]
    constructor
    · intro _
      exact ⟨[], s, rfl, by rw [match_items_full]; rfl⟩
    · intro _
      rfl
  | case2 a rest =>
    rw [match_items]
    constructor
    · intro h
      exact absurd h (by simp)
    · rintro ⟨p, q, hpq, hfull⟩
      have hp : p = [] := by
        cases p with
        | nil => rfl
        | cons d ds => exact absurd hpq.symm (by simp)
      subst hp
      rw [match_items_full] at hfull
      exact absurd hfull (by simp)
  | case3 a rest c cs ih =>
    rw [match_items]
    simp only [Bool.and_eq_true]
    constructor
    · rintro ⟨ha, hm⟩
      obtain ⟨p, q, hpq, hf⟩ := ih.mp hm
      refine ⟨c :: p, q, by rw [hpq]; rfl, ?_⟩
      rw [match_items_full, ha, hf]
      rfl
    · rintro ⟨p, q, hpq, hf⟩
      cases p with
      | nil =>
        rw [match_items_full] at hf
        exact absurd hf (by simp)
      | cons d ds =>
        rw [List.cons_append] at hpq
        injection hpq with hc hcs
        subst hc
        rw [match_items_full] at hf
        simp only [Bool.and_eq_true] at hf
        exact ⟨hf.1, ih.mpr ⟨ds, q, hcs, hf.2⟩⟩
  | case4 a rest ih =>
    rw [match_items]
    constructor
    · intro h
      obtain ⟨p, q, hpq, hf⟩ := ih.mp h
      obtain ⟨hp, hq⟩ := List.append_eq_nil.mp hpq.symm
      subst hp
      refine ⟨[], [], rfl, ?_⟩
      rw [match_items_full]
      exact hf
    · rintro ⟨p, q, hpq, hf⟩
      have hp : p = [] := (List.append_eq_nil.mp hpq.symm).1
      subst hp
      rw [match_items_full] at hf
      exact ih.mpr ⟨[], q, hpq, hf⟩
  | case5 a rest c cs ih1 ih2 =>
    rw [match_items]
    simp only [Bool.or_eq_true, Bool.and_eq_true]
    constructor
    · intro h
      rcases h with hl | ⟨ha, hm⟩
      · obtain ⟨p, q, hpq, hf⟩ := ih1.mp hl
        refine ⟨p, q, hpq, ?_⟩
        cases p with
        | nil =>
          rw [match_items_full]
          exact hf
        | cons d ds =>
          rw [match_items_full, hf]
          rfl
      · obtain ⟨p, q, hpq, hf⟩ := ih2.mp hm
        refine ⟨c :: p, q, by rw [hpq]; rfl, ?_⟩
        rw [match_items_full, ha, hf]
        simp
    · rintro ⟨p, q, hpq, hf⟩
      cases p with
      | nil =>
        rw [match_items_full] at hf
        left
        exact ih1.mpr ⟨[], q, hpq, hf⟩
      | cons d ds =>
        rw [List.cons_append] at hpq
        injection hpq with hc hcs
        subst hc
        rw [match_items_full] at hf
        simp only [Bool.or_eq_true, Bool.and_eq_true] at hf
        rcases hf with hl | ⟨ha, hr⟩
        · left
          exact ih1.mpr ⟨c :: ds, q, by rw [hcs]; rfl, hl⟩
        · right
          exact ⟨ha, ih2.mpr ⟨ds, q, hcs, hr⟩⟩

/-- Compilation of a pattern string into items.  A star binds to the
preceding atom; metacharacters outside the supported fragment make the
whole pattern unsupported (none). -/
def parse_items : List Char → List RItem → Option (List RItem)
  | [], acc => some acc.reverse
  | c :: cs, acc =>
    if c = '*' then
      match acc with
      | RItem.once a :: acc2 => parse_items cs (RItem.star a :: acc2)
      | _ => none
    else if c = '.' then parse_items cs (RItem.once RAtom.dot :: acc)
    else if c ∈ ['+', '?', '(', ')', '[', ']', '\x7b', '\x7d', '|', '^', '$', '\\'] then none
    else parse_items cs (RItem.once (RAtom.lit c) :: acc)

/-- Model of re.match(expr, s) is not None: start-anchored match. -/
def re_match (pat s : String) : Bool :=
  match parse_items pat.toList [] with
  | some items => match_items items s.toList
  | none => false

theorem re_match_iff (pat s : String) :
    re_match pat s = true ↔
      ∃ items, parse_items pat.toList [] = some items ∧
        ∃ p q, s.toList = p ++ q ∧ match_items_full items p = true := by
  unfold re_match
  cases h : parse_items pat.toList [] with
  | none => simp
  | some items => simp [match_items_eq_exists]

/- Data model. -/

/-- Commit metadata snapshot delivered by the hosting adapter. -/
structure Commit where
  sha : String
  message : String
deriving DecidableEq

/-- Pull request descriptor; only the fields the dispatch logic consults
(number, labels) are modelled. -/
structure PullRequestInfo where
  number : Nat
  labels : List String
deriving DecidableEq

/-- A build job.  Modelled from the spec: the MurdockJob class itself
(src/murdock/job.py) is not part of the given sources.  Following the
spec, the two source spellings cancelled and canceled denote one sticky
boolean field, modelled as canceled.  The per-job configuration bit
config.pr.enable_comments is inlined as pr_enable_comments; time stamps
are abstract. -/
structure MurdockJob where
  uid : Nat
  commit : Commit
  pr : Option PullRequestInfo
  ref : Option String
  fasttracked : Bool
  canceled : Bool
  result : String
  status : String
  start_time : Option Nat
  stop_time : Option Nat
  pr_enable_comments : Bool
deriving DecidableEq

/-- One call to an external adapter, in program order. -/
inductive ExtCall where
  | setCommitStatus (sha state description : String)
  | commentOnPR (uid : Nat)
  | insertJob (uid : Nat)
  | jobStop (uid : Nat)
  | wsClose (client : Nat)
  | dbClose
  | removeDir (uid : Nat)
  | reload
deriving DecidableEq

/-- State owned by the Murdock dispatch core. -/
structure CoreState where
  jobs : List MurdockJob
  queued : List Nat
  running : List (Option Nat)
  queue : List Nat
  fasttrack_queue : List Nat
  clients : List Nat
  db : List MurdockJob
  cancel_on_update : Bool
deriving DecidableEq

def find_job : List MurdockJob → Nat → Option MurdockJob
  | [], _ => none
  | j :: js, u => if j.uid = u then some j else find_job js u

/-- Heap lookup by uid. -/
def get_job (s : CoreState) (u : Nat) : Option MurdockJob :=
  find_job s.jobs u

def job_sha (s : CoreState) (u : Nat) : String :=
  match get_job s u with
  | some j => j.commit.sha
  | none => ""

/-- Boolean membership on uid lists, kept first order for the proofs. -/
def mem_nat (v : Nat) : List Nat → Bool
  | [] => false
  | u :: rest => (v == u) || mem_nat v rest

theorem mem_nat_iff (v : Nat) (l : List Nat) : mem_nat v l = true ↔ v ∈ l := by
  induction l with
  | nil => simp [mem_nat]
  | cons u rest ih => simp [mem_nat, ih, Nat.beq_eq, List.mem_cons]

def pr_matches (s : CoreState) (u : Nat) (n : Nat) : Bool :=
  match get_job s u with
  | some j =>
    match j.pr with
    | some p => p.number == n
    | none => false
  | none => false

def ref_matches (s : CoreState) (u : Nat) (r : String) : Bool :=
  match get_job s u with
  | some j => j.ref == some r
  | none => false

/-- MurdockJobList.search_by_pr_number on the WaitingSet. -/
def search_queued_by_pr_number (s : CoreState) (n : Nat) : List Nat :=
  s.queued.filter (fun u => pr_matches s u n)

/-- MurdockJobList.search_by_ref on the WaitingSet. -/
def search_queued_by_ref (s : CoreState) (r : String) : List Nat :=
  s.queued.filter (fun u => ref_matches s u r)

/-- MurdockJobPool.search_by_pr_number on the RunningSet slots. -/
def search_running_by_pr_number (s : CoreState) (n : Nat) : List Nat :=
  (s.running.filterMap id).filter (fun u => pr_matches s u n)

/-- MurdockJobPool.search_by_ref on the RunningSet slots. -/
def search_running_by_ref (s : CoreState) (r : String) : List Nat :=
  (s.running.filterMap id).filter (fun u => ref_matches s u r)

def mark_canceled (u : Nat) (j : MurdockJob) : MurdockJob :=
  if j.uid = u then { j with canceled := true } else j

/-- Murdock.cancel_queued_job without reload: set the sticky canceled
flag, drop the job from the WaitingSet, post a Canceled pending status. -/
def cancel_queued_job (s : CoreState) (u : Nat) : CoreState × List ExtCall :=
  ({ s with jobs := s.jobs.map (mark_canceled u),
            queued := s.queued.filter (fun v => v != u) },
   [ExtCall.setCommitStatus (job_sha s u) "pending" "Canceled"])

/-- Murdock.stop_running_job without reload: ask the execution adapter to
stop the job and post a Stopped pending status.  The RunningSet slot is
not freed here; job_finalize frees it when execute returns. -/
def stop_running_job (s : CoreState) (u : Nat) : CoreState × List ExtCall :=
  (s, [ExtCall.jobStop u, ExtCall.setCommitStatus (job_sha s u) "pending" "Stopped"])

def cancel_many : CoreState → List Nat → CoreState × List ExtCall
  | s, [] => (s, [])
  | s, u :: rest =>
    let r := cancel_queued_job s u
    let r2 := cancel_many r.1 rest
    (r2.1, r.2 ++ r2.2)

def stop_many : CoreState → List Nat → CoreState × List ExtCall
  | s, [] => (s, [])
  | s, u :: rest =>
    let r := stop_running_job s u
    let r2 := stop_many r.1 rest
    (r2.1, r.2 ++ r2.2)

/-- cancel_queued_job with reload_jobs=True, iterated. -/
def cancel_many_reload : CoreState → List Nat → CoreState × List ExtCall
  | s, [] => (s, [])
  | s, u :: rest =>
    let r := cancel_queued_job s u
    let r2 := cancel_many_reload r.1 rest
    (r2.1, r.2 ++ [ExtCall.reload] ++ r2.2)

/-- stop_running_job with reload_jobs=True, iterated. -/
def stop_many_reload : CoreState → List Nat → CoreState × List ExtCall
  | s, [] => (s, [])
  | s, u :: rest =>
    let r := stop_running_job s u
    let r2 := stop_many_reload r.1 rest
    (r2.1, r.2 ++ [ExtCall.reload] ++ r2.2)

/-- The WaitingSet jobs collected by Murdock.cancel_queued_jobs_matching:
matches by PR number, then matches by ref, both read before any removal. -/
def queued_matching (s : CoreState) (j : MurdockJob) : List Nat :=
  (match j.pr with
   | some p => search_queued_by_pr_number s p.number
   | none => []) ++
  (match j.ref with
   | some r => search_queued_by_ref s r
   | none => [])

/-- The RunningSet jobs collected by Murdock.stop_running_jobs_matching. -/
def running_matching (s : CoreState) (j : MurdockJob) : List Nat :=
  (match j.pr with
   | some p => search_running_by_pr_number s p.number
   | none => []) ++
  (match j.ref with
   | some r => search_running_by_ref s r
   | none => [])

/-- Murdock.cancel_queued_jobs_matching: returns the new state, the trace
and the list of cancelled jobs. -/
def cancel_queued_jobs_matching (s : CoreState) (j : MurdockJob) :
    CoreState × List ExtCall × List Nat :=
  let l := queued_matching s j
  let r := cancel_many s l
  (r.1, r.2, l)

/-- Murdock.stop_running_jobs_matching. -/
def stop_running_jobs_matching (s : CoreState) (j : MurdockJob) :
    CoreState × List ExtCall × List Nat :=
  let l := running_matching s j
  let r := stop_many s l
  (r.1, r.2, l)

/-- Murdock.disable_jobs_matching: cancel matching queued jobs, stop
matching running jobs, broadcast reload when anything was disabled. -/
def disable_jobs_matching (s : CoreState) (j : MurdockJob) :
    CoreState × List ExtCall × List Nat :=
  let rc := cancel_queued_jobs_matching s j
  let rs := stop_running_jobs_matching rc.1 j
  let disabled := rc.2.2 ++ rs.2.2
  (rs.1, rc.2.1 ++ rs.2.1 ++ (if disabled.isEmpty then [] else [ExtCall.reload]), disabled)

/-- Murdock.add_job_to_queue: the all slots busy check reads the
RunningSet before the job is inserted into the WaitingSet. -/
def add_job_to_queue (s : CoreState) (j : MurdockJob) : CoreState × List ExtCall :=
  let all_busy := s.running.all Option.isSome
  let s1 := { s with jobs := s.jobs ++ [j], queued := s.queued ++ [j.uid] }
  let s2 :=
    if all_busy && j.fasttracked then
      { s1 with fasttrack_queue := s1.fasttrack_queue ++ [j.uid] }
    else
      { s1 with queue := s1.queue ++ [j.uid] }
  (s2, [ExtCall.setCommitStatus j.commit.sha "pending" "The build has been queued",
        ExtCall.reload])

/-- Murdock.schedule_job. -/
def schedule_job (s : CoreState) (j : MurdockJob) : CoreState × List ExtCall :=
  if s.cancel_on_update then
    let r := disable_jobs_matching s j
    let r2 := add_job_to_queue r.1 j
    (r2.1, r.2.1 ++ r2.2)
  else
    add_job_to_queue s j

/-- Put a job into the first free RunningSet slot.  Modelled from the
spec: MurdockJobPool.add is not part of the given sources; the spec says
the job occupies one slot of the fixed capacity array. -/
def pool_add : List (Option Nat) → Nat → List (Option Nat)
  | [], _ => []
  | none :: rest, u => some u :: rest
  | some v :: rest, u => some v :: pool_add rest u

/-- Murdock.job_prepare: leave the WaitingSet, occupy a RunningSet slot,
record the start time, post a started status, broadcast reload. -/
def job_prepare (s : CoreState) (j : MurdockJob) : CoreState × MurdockJob × List ExtCall :=
  let j1 := { j with start_time := some 0 }
  ({ s with queued := s.queued.filter (fun v => v != j.uid),
            running := pool_add s.running j.uid,
            jobs := s.jobs.map (fun k => if k.uid == j.uid then j1 else k) },
   j1,
   [ExtCall.setCommitStatus j.commit.sha "pending" "The build has started",
    ExtCall.reload])

/-- The job record as job_finalize leaves it: stop time set and a working
phase moved to finished. -/
def finalized_job (j : MurdockJob) : MurdockJob :=
  { j with stop_time := some 0,
           status := if j.status = "working" then "finished" else j.status }

/-- Murdock.job_finalize: free the RunningSet slot; unless the result is
stopped, post the final commit status, optionally comment on the PR, and
persist the job; always broadcast reload.  The human readable runtime in
the status description is abstracted away. -/
def job_finalize (s : CoreState) (j : MurdockJob) : CoreState × List ExtCall :=
  let j1 := finalized_job j
  let s1 := { s with jobs := s.jobs.map (fun k => if k.uid == j.uid then j1 else k),
                     running := s.running.map (fun o => if o == some j.uid then none else o) }
  if j.result = "stopped" then
    (s1, [ExtCall.reload])
  else
    ({ s1 with db := s1.db ++ [j1] },
     [ExtCall.setCommitStatus j.commit.sha
        (if j.result = "passed" then "success" else "failure")
        (if j.result = "passed" then "The build succeeded." else "The build failed.")]
     ++ (if j.pr.isSome && j.pr_enable_comments then [ExtCall.commentOnPR j.uid] else [])
     ++ [ExtCall.insertJob j.uid, ExtCall.reload])

/-- Murdock._process_job.  The execution adapter is a parameter: it
receives the prepared job and returns the job as execute left it together
with a flag telling whether execute raised (in which case the worker sets
result to errored). -/
def process_job (exec : MurdockJob → MurdockJob × Bool) (s : CoreState) (j : MurdockJob) :
    CoreState × List ExtCall :=
  if j.canceled then (s, [])
  else
    let p := job_prepare s j
    let e := exec p.2.1
    let j2 := if e.2 then { e.1 with result := "errored" } else e.1
    let f := job_finalize p.1 j2
    (f.1, p.2.2 ++ f.2)

/-- Murdock.shutdown: close the persistence connection, close every
observer connection, mark every WaitingSet job canceled, invoke stop on
every occupied RunningSet slot. -/
def shutdown (s : CoreState) : CoreState × List ExtCall :=
  ({ s with jobs := s.jobs.map (fun j =>
      if mem_nat j.uid s.queued then { j with canceled := true } else j) },
   [ExtCall.dbClose] ++ s.clients.map ExtCall.wsClose
     ++ s.running.filterMap (fun o => o.map ExtCall.jobStop))

/-- Murdock.notify_message_to_clients: a bare asyncio.gather over one
send per client.  Every send is attempted; if any of them raises, the
gather re-raises and the whole operation fails.  The client list is
returned unchanged: nothing removes a failing client. -/
def notify_message_to_clients (send : Nat → Except Unit Unit) (clients : List Nat) :
    Except Unit Unit × List Nat :=
  (if clients.all (fun c => (send c).isOk) then Except.ok () else Except.error (),
   clients)

/-- Murdock.handle_ref. -/
def handle_ref (ref : String) (rules : List String) : Bool :=
  decide ("*" ∈ rules) || decide (ref ∈ rules) ||
    rules.any (fun expr => re_match expr ref)

/-- Per-commit build configuration, as consumed by the dispatch core. -/
structure Config where
  push_branches : List String
  push_tags : List String
  skip_keywords : List String
  pr_enable_comments : Bool
deriving DecidableEq

def split_sep_aux (sep : Char) : List Char → List Char → List String
  | [], acc => [String.mk acc.reverse]
  | c :: cs, acc =>
    if c = sep then String.mk acc.reverse :: split_sep_aux sep cs []
    else split_sep_aux sep cs (c :: acc)

/-- Python str.split on a one character separator (keeps empty pieces). -/
def split_sep (sep : Char) (s : String) : List String :=
  split_sep_aux sep s.toList []

/-- Murdock.handle_skip_job condition.  The source matches each commit
message line against the whole line alternation of the configured skip
keywords; for literal keywords that is exact membership, modelled here
directly (no claim exercises keywords with metacharacters). -/
def skip_matches (cfg : Config) (message : String) : Bool :=
  (split_sep '\n' message).any (fun line => line ≠ "" && line ∈ cfg.skip_keywords)

/-- Push event payload; only the fields read by handle_push_event. -/
structure PushEvent where
  ref : String
  after : String
deriving DecidableEq

def zero_sha : String := "0000000000000000000000000000000000000000"

/-- The last two components of the slash separated ref path. -/
def split_ref (ref : String) : String × String :=
  let parts := split_sep '/' ref
  (parts.reverse.drop 1 |>.headD "", parts.reverse.headD "")

/-- Murdock.handle_push_event.  The hosting adapter lookups are
parameters; fresh_uid names the job object a scheduling would create.
The branch for a deleted ref (all zero after SHA) is kept exactly as the
source has it: the jobs found in the RunningSet are passed to
cancel_queued_job and the jobs found in the WaitingSet are passed to
stop_running_job. -/
def handle_push_event (fetch : String → Option Commit) (fetch_config : String → Config)
    (fresh_uid : Nat) (s : CoreState) (e : PushEvent) : CoreState × List ExtCall :=
  let ref := e.ref
  if e.after = zero_sha then
    let r1 := cancel_many_reload s (search_running_by_ref s ref)
    let r2 := stop_many_reload r1.1 (search_queued_by_ref r1.1 ref)
    (r2.1, r1.2 ++ r2.2)
  else
    match fetch e.after with
    | none => (s, [])
    | some commit =>
      let config := fetch_config commit.sha
      let rt := split_ref ref
      if (rt.1 = "heads" && !handle_ref rt.2 config.push_branches)
          || (rt.1 = "tags" && !handle_ref rt.2 config.push_tags) then
        (s, [])
      else
        let job : MurdockJob :=
          { uid := fresh_uid, commit := commit, pr := none, ref := some ref,
            fasttracked := false, canceled := false, result := "unset",
            status := "queued", start_time := none, stop_time := none,
            pr_enable_comments := config.pr_enable_comments }
        if skip_matches config commit.message then
          (s, [ExtCall.setCommitStatus commit.sha "pending" "The build was skipped."])
        else
          schedule_job s job

/-- Pull request event payload; only the fields the handler reads.
labels carries the label names of the current label set of the PR and
labelName the name of the label the labeled or unlabeled action is
about. -/
structure PREvent where
  action? : Option String
  prNumber : Nat
  headSha : String
  labels : List String
  labelName : String
deriving DecidableEq

def ALLOWED_ACTIONS : List String :=
  ["labeled", "unlabeled", "synchronize", "created", "closed", "opened", "reopened"]

def insert_sorted (x : String) : List String → List String
  | [] => [x]
  | y :: ys => if x ≤ y then x :: y :: ys else y :: insert_sorted x ys

/-- Ascending sort of the label names, as the handler builds
PullRequestInfo.labels. -/
def sort_strings : List String → List String
  | [] => []
  | x :: xs => insert_sorted x (sort_strings xs)

/-- Python membership test ready_label not in labels, where a missing
ready label (None) is never an element of a list of strings. -/
def ready_label_not_in (ready_label : Option String) (labels : List String) : Bool :=
  match ready_label with
  | some l => decide (l ∉ labels)
  | none => true

/-- Tail of handle_pull_request_event from the ready label gate on:
without the ready label, disable matching jobs and post the label not
set status; otherwise apply the unlabeled bookkeeping and schedule. -/
def pr_event_tail (ready_label : Option String) (s : CoreState) (e : PREvent)
    (job : MurdockJob) (pull_request : PullRequestInfo) :
    CoreState × List ExtCall × Option String :=
  if ready_label_not_in ready_label pull_request.labels then
    let r := disable_jobs_matching s job
    (r.1,
     r.2.1 ++ [ExtCall.setCommitStatus job.commit.sha "pending"
       ("\"" ++ (match ready_label with | some l => l | none => "None") ++ "\" label not set")],
     none)
  else
    let s2 :=
      if e.action? == some "unlabeled" then
        let matched := search_queued_by_pr_number s pull_request.number
        { s with jobs := s.jobs.map (fun k =>
            if mem_nat k.uid matched then
              { k with pr := k.pr.map (fun p => { p with labels := p.labels.erase e.labelName }) }
            else k) }
      else s
    let r := schedule_job s2 job
    (r.1, r.2, none)

/-- Murdock.handle_pull_request_event.  Hosting adapter lookups and the
globally configured ready label are parameters; fresh_uid names the
candidate job object. -/
def handle_pull_request_event (fetch : String → Option Commit)
    (fetch_config : String → Config) (ready_label : Option String)
    (fresh_uid : Nat) (s : CoreState) (e : PREvent) :
    CoreState × List ExtCall × Option String :=
  match e.action? with
  | none => (s, [], some "Unsupported event")
  | some action =>
    if action ∈ ALLOWED_ACTIONS then
      match fetch e.headSha with
      | none => (s, [], none)
      | some commit =>
        let config := fetch_config commit.sha
        let pull_request : PullRequestInfo :=
          { number := e.prNumber, labels := sort_strings e.labels }
        let job : MurdockJob :=
          { uid := fresh_uid, commit := commit, pr := some pull_request, ref := none,
            fasttracked := false, canceled := false, result := "unset",
            status := "queued", start_time := none, stop_time := none,
            pr_enable_comments := config.pr_enable_comments }
        if action = "closed" then
          let r := disable_jobs_matching s job
          (r.1, r.2.1, none)
        else if skip_matches config commit.message then
          (s, [ExtCall.setCommitStatus commit.sha "pending" "The build was skipped."], none)
        else if action = "labeled" then
          if ready_label.isSome && ready_label_not_in ready_label pull_request.labels then
            (s, [], none)
          else if some e.labelName ≠ ready_label then
            let matched := search_queued_by_pr_number s pull_request.number
            ({ s with jobs := s.jobs.map (fun k =>
                 if mem_nat k.uid matched then
                   { k with pr := k.pr.map (fun p => { p with labels := p.labels ++ [e.labelName] }) }
                 else k) },
             [], none)
          else
            pr_event_tail ready_label s e job pull_request
        else
          pr_event_tail ready_label s e job pull_request
    else
      (s, [], some ("Unsupported action " ++ action))

/- Persistence queries (Modelled from the spec: the Database adapter and
JobQueryModel live outside the given sources; countJobs, findJobs and
deleteJobs follow the section 6 contract, with a negative limit meaning
unlimited and a nonnegative limit capping the result). -/

structure JobQueryModel where
  limit : Int
  pr_number : Option Nat
  ref : Option String
deriving DecidableEq

def matches_query (q : JobQueryModel) (j : MurdockJob) : Bool :=
  (match q.pr_number with
   | some n =>
     match j.pr with
     | some p => p.number == n
     | none => false
   | none => true)
  && (match q.ref with
      | some r => j.ref == some r
      | none => true)

def count_jobs (db : List MurdockJob) (q : JobQueryModel) : Nat :=
  let m := (db.filter (matches_query q)).length
  if q.limit < 0 then m else min m q.limit.toNat

def find_jobs (db : List MurdockJob) (q : JobQueryModel) : List MurdockJob :=
  let l := db.filter (matches_query q)
  if q.limit < 0 then l else l.take q.limit.toNat

def delete_jobs (db : List MurdockJob) (q : JobQueryModel) : List MurdockJob :=
  let sel := find_jobs db q
  db.filter (fun j => !(sel.contains j))

/-- Murdock.remove_finished_jobs, acting on the persisted store.  The
query argument is mutated in the source; the model returns the store,
the query as the function leaves it, the removed jobs and the trace. -/
def remove_finished_jobs (db : List MurdockJob) (q : JobQueryModel) :
    List MurdockJob × JobQueryModel × List MurdockJob × List ExtCall :=
  let q1 : JobQueryModel := { q with limit := -1 }
  let jobs_count := count_jobs db q1
  let q2 : JobQueryModel := { q1 with limit := (jobs_count : Int) }
  let jobs_to_remove := find_jobs db q2
  let db2 := delete_jobs db q2
  (db2, q2, jobs_to_remove,
   jobs_to_remove.map (fun j => ExtCall.removeDir j.uid) ++ [ExtCall.reload])

/- Claim theorems. -/

def c4_send : Nat → Except Unit Unit :=
  fun c => if c = 1 then Except.error () else Except.ok ()

/-- Claim C4: evaluation of notify_message_to_clients with two
subscribed observers of which the first fails to send.  The bulk
asyncio.gather re-raises the failure, so the notify operation aborts
with an error, and the observer list comes back unchanged: the failing
observer is not dropped.  This contradicts the claim, which requires
the failure not to abort the operation and only the failing observer to
be dropped; the spec itself notes in section 9 that the bulk gather of
the source would propagate a single failure. -/
theorem c4_notify_gather_eval :
    notify_message_to_clients c4_send [1, 2] = (Except.error (), [1, 2])
    ∧ notify_message_to_clients c4_send [2] = (Except.ok (), [2]) :=
  ⟨rfl, rfl⟩

/-- Claim C6: add_job_to_queue always inserts the job into the
WaitingSet, and routes it to the fastTrack lane exactly when every
RunningSet slot was occupied (read before the insertion, which cannot
change slot occupancy) and the job is fasttracked; in every other case
the normal lane receives it. -/
theorem c6_add_job_to_queue_spec (s : CoreState) (j : MurdockJob) :
    (add_job_to_queue s j).1.queued = s.queued ++ [j.uid]
    ∧ (s.running.all Option.isSome = true ∧ j.fasttracked = true →
        (add_job_to_queue s j).1.fasttrack_queue = s.fasttrack_queue ++ [j.uid]
        ∧ (add_job_to_queue s j).1.queue = s.queue)
    ∧ (¬(s.running.all Option.isSome = true ∧ j.fasttracked = true) →
        (add_job_to_queue s j).1.queue = s.queue ++ [j.uid]
        ∧ (add_job_to_queue s j).1.fasttrack_queue = s.fasttrack_queue) := by
  refine ⟨?_, ?_, ?_⟩
  · cases hb : (s.running.all Option.isSome && j.fasttracked) <;>
      simp [add_job_to_queue, hb]
  · rintro ⟨h1, h2⟩
    simp [add_job_to_queue, h1, h2]
  · intro h
    cases hb : (s.running.all Option.isSome && j.fasttracked) with
    | false => simp [add_job_to_queue, hb]
    | true =>
      simp only [Bool.and_eq_true] at hb
      exact absurd hb h

def c6_job : MurdockJob :=
  { uid := 4, commit := { sha := "c6", message := "m" }, pr := none,
    ref := some "refs/heads/b", fasttracked := true, canceled := false,
    result := "unset", status := "queued", start_time := none,
    stop_time := none, pr_enable_comments := false }

def c6_state : CoreState :=
  { jobs := [], queued := [], running := [some 1], queue := [],
    fasttrack_queue := [], clients := [], db := [], cancel_on_update := false }

/-- Claim C6 witness: with the single RunningSet slot occupied, a
fasttracked job lands in the fastTrack lane and the WaitingSet. -/
theorem c6_add_job_to_queue_witness :
    (add_job_to_queue c6_state c6_job).1.queued = c6_state.queued ++ [c6_job.uid]
    ∧ (add_job_to_queue c6_state c6_job).1.fasttrack_queue
        = c6_state.fasttrack_queue ++ [c6_job.uid]
    ∧ (add_job_to_queue c6_state c6_job).1.queue = c6_state.queue :=
  ⟨(c6_add_job_to_queue_spec c6_state c6_job).1,
   ((c6_add_job_to_queue_spec c6_state c6_job).2.1 ⟨by decide, by decide⟩).1,
   ((c6_add_job_to_queue_spec c6_state c6_job).2.1 ⟨by decide, by decide⟩).2⟩

/-- Claim C8: a worker that dequeues a job whose canceled flag is set
returns at once: the core state is untouched, no external call is made,
and the outcome does not depend on the execution adapter, so prepare,
execute and finalize are never reached. -/
theorem c8_process_job_canceled (exec : MurdockJob → MurdockJob × Bool)
    (s : CoreState) (j : MurdockJob) (h : j.canceled = true) :
    process_job exec s j = (s, []) := by
  unfold process_job
  rw [h]
  rfl

def c8_job : MurdockJob :=
  { uid := 8, commit := { sha := "c8", message := "m" }, pr := none,
    ref := some "refs/heads/x", fasttracked := false, canceled := true,
    result := "unset", status := "queued", start_time := none,
    stop_time := none, pr_enable_comments := false }

def c8_state : CoreState :=
  { jobs := [c8_job], queued := [8], running := [none], queue := [8],
    fasttrack_queue := [], clients := [], db := [], cancel_on_update := true }

def c8_exec : MurdockJob → MurdockJob × Bool := fun j => ({ j with result := "passed" }, false)

/-- Claim C8 witness. -/
theorem c8_process_job_canceled_witness :
    c8_job.canceled = true ∧ process_job c8_exec c8_state c8_job = (c8_state, []) :=
  ⟨by decide, c8_process_job_canceled c8_exec c8_state c8_job (by decide)⟩

def c3_job : MurdockJob :=
  { uid := 3, commit := { sha := "sha3", message := "m" }, pr := none,
    ref := some "refs/heads/b", fasttracked := false, canceled := false,
    result := "unset", status := "working", start_time := some 0,
    stop_time := none, pr_enable_comments := false }

def c3_state : CoreState :=
  { jobs := [c3_job], queued := [], running := [some 3], queue := [],
    fasttrack_queue := [], clients := [], db := [], cancel_on_update := true }

/-- Claim C3 counterexample: a job that reaches job_finalize with its
result still unset is persisted and receives a final failure commit
status, although unset is neither passed nor errored.  The source only
excludes the stopped result, so the claimed equivalence (persisted iff
result in passed or errored) fails at this input. -/
theorem c3_counterexample :
    c3_job.result ≠ "passed" ∧ c3_job.result ≠ "errored" ∧ c3_job.result ≠ "stopped"
    ∧ (job_finalize c3_state c3_job).1.db = [finalized_job c3_job]
    ∧ ExtCall.insertJob 3 ∈ (job_finalize c3_state c3_job).2
    ∧ ExtCall.setCommitStatus "sha3" "failure" "The build failed."
        ∈ (job_finalize c3_state c3_job).2 := by
  decide

/-- Claim C3 amended: job_finalize persists the job and posts the final
commit status if and only if the result differs from stopped.  Under the
execution adapter contract of section 6 (execute leaves the result as
passed, errored or stopped) this is the passed or errored condition of
the claim, but taken by itself the function also persists any other
result value, such as unset.  A stopped job is not persisted and its
only emitted call is the reload broadcast. -/
theorem c3_job_finalize_amended (s : CoreState) (j : MurdockJob) :
    (j.result = "stopped" →
      (job_finalize s j).1.db = s.db ∧ (job_finalize s j).2 = [ExtCall.reload])
    ∧ (j.result ≠ "stopped" →
      (job_finalize s j).1.db = s.db ++ [finalized_job j]
      ∧ ExtCall.insertJob j.uid ∈ (job_finalize s j).2
      ∧ ExtCall.setCommitStatus j.commit.sha
          (if j.result = "passed" then "success" else "failure")
          (if j.result = "passed" then "The build succeeded." else "The build failed.")
          ∈ (job_finalize s j).2) := by
  constructor
  · intro h
    simp [job_finalize, h]
  · intro h
    simp [job_finalize, h]

def c3_stopped_job : MurdockJob := { c3_job with uid := 5, result := "stopped" }

/-- Claim C3 amended witness. -/
theorem c3_job_finalize_amended_witness :
    ((job_finalize c3_state c3_stopped_job).1.db = c3_state.db
      ∧ (job_finalize c3_state c3_stopped_job).2 = [ExtCall.reload])
    ∧ ((job_finalize c3_state c3_job).1.db = c3_state.db ++ [finalized_job c3_job]
      ∧ ExtCall.insertJob c3_job.uid ∈ (job_finalize c3_state c3_job).2
      ∧ ExtCall.setCommitStatus c3_job.commit.sha
          (if c3_job.result = "passed" then "success" else "failure")
          (if c3_job.result = "passed" then "The build succeeded." else "The build failed.")
          ∈ (job_finalize c3_state c3_job).2) :=
  ⟨(c3_job_finalize_amended c3_state c3_stopped_job).1 (by decide),
   (c3_job_finalize_amended c3_state c3_job).2 (by decide)⟩

/-- Claim C9: handle_ref accepts exactly when the rules contain the
literal star, or contain the ref verbatim, or some rule read as a start
anchored regular expression fully matches a prefix of the ref (matching
is not anchored at the end); in particular the rule dev accepts the ref
development, and an empty rule list accepts no ref at all. -/
theorem c9_handle_ref_spec (ref : String) (rules : List String) :
    (handle_ref ref rules = true ↔
      "*" ∈ rules ∨ ref ∈ rules ∨
        ∃ e ∈ rules, ∃ items, parse_items e.toList [] = some items ∧
          ∃ p q, ref.toList = p ++ q ∧ match_items_full items p = true)
    ∧ handle_ref "development" ["dev"] = true
    ∧ handle_ref ref [] = false := by
  refine ⟨?_, ?_, ?_⟩
  · simp only [handle_ref, Bool.or_eq_true, decide_eq_true_eq, List.any_eq_true,
      re_match_iff, or_assoc]
  · simp [handle_ref, re_match, parse_items, match_items, atom_match]
  · simp [handle_ref]

/-- Claim C10: remove_finished_jobs hands back the query with its limit
overwritten: on return the limit equals the number of stored jobs that
matched the query filters under an unlimited limit at entry, whatever
limit the caller passed, and the incoming limit is never restored. -/
theorem c10_remove_finished_jobs_limit (db : List MurdockJob) (q : JobQueryModel) :
    (remove_finished_jobs db q).2.1.limit
      = ((db.filter (matches_query { q with limit := -1 })).length : Int)
    ∧ ∀ l1 l2 : Int,
        (remove_finished_jobs db { q with limit := l1 }).2.1.limit
          = (remove_finished_jobs db { q with limit := l2 }).2.1.limit := by
  constructor
  · simp [remove_finished_jobs, count_jobs]
  · intro l1 l2
    simp [remove_finished_jobs, count_jobs]

def c1_config : Config :=
  { push_branches := ["*"], push_tags := ["*"], skip_keywords := [],
    pr_enable_comments := false }

def c1_queued_job : MurdockJob :=
  { uid := 1, commit := { sha := "q1", message := "m" }, pr := none,
    ref := some "refs/heads/topic", fasttracked := false, canceled := false,
    result := "unset", status := "queued", start_time := none,
    stop_time := none, pr_enable_comments := false }

def c1_running_job : MurdockJob :=
  { uid := 2, commit := { sha := "r2", message := "m" }, pr := none,
    ref := some "refs/heads/topic", fasttracked := false, canceled := false,
    result := "unset", status := "working", start_time := some 0,
    stop_time := none, pr_enable_comments := false }

def c1_state : CoreState :=
  { jobs := [c1_queued_job, c1_running_job], queued := [1], running := [some 2],
    queue := [1], fasttrack_queue := [], clients := [], db := [],
    cancel_on_update := true }

def c1_event : PushEvent := { ref := "refs/heads/topic", after := zero_sha }

/-- Claim C1: evaluation of handle_push_event on a ref deletion push
(all zero after SHA) with one queued job (uid 1) and one running job
(uid 2) on the deleted ref.  The source transposes the two operations:
the job found in the RunningSet is passed to the queued job
cancellation (it gets the canceled flag and a Canceled status but no
stop call, and stays in its slot), while the job found in the
WaitingSet is passed to the running job stop (it gets a stop call and a
Stopped status, stays in the WaitingSet and is never flagged canceled).
No new job is scheduled.  This contradicts the claimed pairing, which
is the one the spec prescribes; section 9 of the spec records the
transposition as a source bug. -/
theorem c1_push_deletion_eval :
    (handle_push_event (fun _ => none) (fun _ => c1_config) 99 c1_state c1_event).2
      = [ExtCall.setCommitStatus "r2" "pending" "Canceled", ExtCall.reload,
         ExtCall.jobStop 1, ExtCall.setCommitStatus "q1" "pending" "Stopped",
         ExtCall.reload]
    ∧ (handle_push_event (fun _ => none) (fun _ => c1_config) 99 c1_state c1_event).1
      = { c1_state with jobs := [c1_queued_job, { c1_running_job with canceled := true }] } := by
  decide

def c2_config : Config :=
  { push_branches := [], push_tags := [], skip_keywords := [],
    pr_enable_comments := false }

def c2_commit : Commit := { sha := "h7", message := "m" }

def c2_queued_job : MurdockJob :=
  { uid := 1, commit := { sha := "p7", message := "m" },
    pr := some { number := 7, labels := ["x"] }, ref := none,
    fasttracked := false, canceled := false, result := "unset",
    status := "queued", start_time := none, stop_time := none,
    pr_enable_comments := false }

def c2_state : CoreState :=
  { jobs := [c2_queued_job], queued := [1], running := [none], queue := [1],
    fasttrack_queue := [], clients := [], db := [], cancel_on_update := true }

def c2_event : PREvent :=
  { action? := some "labeled", prNumber := 7, headSha := "h7",
    labels := ["x"], labelName := "x" }

/-- Claim C2 counterexample: a labeled action with the ready label
CI:ready configured and absent from the current PR label set makes the
handler return at the early return of the labeled branch: the state is
untouched (the queued job of PR 7 is neither cancelled nor removed), no
commit status of any kind is posted, and nothing is scheduled.  The
claim instead requires a pending label not set status and the
cancellation of every queued job of the PR; that block of the source is
unreachable for the labeled action. -/
theorem c2_labeled_counterexample :
    handle_pull_request_event (fun _ => some c2_commit) (fun _ => c2_config)
        (some "CI:ready") 99 c2_state c2_event
      = (c2_state, [], none) := by
  decide

/-- Claim C2 amended: for a pull request event with action labeled, a
configured ready label that is not in the current label set of the PR,
a commit that can be fetched and a message that does not match the skip
keywords, handle_pull_request_event returns immediately with the state
unchanged: no job is scheduled, no commit status is posted and no
queued job is cancelled.  The label not set status and the disable of
matching jobs happen only for actions other than labeled. -/
theorem c2_labeled_amended (fetch : String → Option Commit)
    (fetch_config : String → Config) (L : String) (fresh_uid : Nat)
    (s : CoreState) (e : PREvent) (commit : Commit)
    (hact : e.action? = some "labeled")
    (hfetch : fetch e.headSha = some commit)
    (hskip : skip_matches (fetch_config commit.sha) commit.message = false)
    (hready : L ∉ sort_strings e.labels) :
    handle_pull_request_event fetch fetch_config (some L) fresh_uid s e
      = (s, [], none) := by
  simp [handle_pull_request_event, hact, hfetch, hskip, ALLOWED_ACTIONS,
    ready_label_not_in, hready]

/-- Claim C2 amended witness. -/
theorem c2_labeled_amended_witness :
    handle_pull_request_event (fun _ => some c2_commit) (fun _ => c2_config)
        (some "CI:r") 98 c2_state c2_event
      = (c2_state, [], none) :=
  c2_labeled_amended (fun _ => some c2_commit) (fun _ => c2_config) "CI:r" 98
    c2_state c2_event c2_commit rfl rfl (by decide) (by decide)

def c5_job1 : MurdockJob :=
  { uid := 1, commit := { sha := "s1", message := "m" }, pr := none,
    ref := some "refs/heads/a", fasttracked := false, canceled := false,
    result := "unset", status := "queued", start_time := none,
    stop_time := none, pr_enable_comments := false }

def c5_state : CoreState :=
  { jobs := [c5_job1], queued := [1], running := [some 2], queue := [1],
    fasttrack_queue := [], clients := [7], db := [], cancel_on_update := true }

def c5_exec : MurdockJob → MurdockJob × Bool := fun j => (j, false)

/-- Claim C5: after shutdown, every heap job that was in the WaitingSet
carries canceled = true (the spec treats the two source spellings
cancelled and canceled as the same field), so a worker that later
dequeues such a job discards it without executing; and stop was invoked
on every job occupying a RunningSet slot. -/
theorem c5_shutdown_spec (s : CoreState) :
    (∀ j, j ∈ (shutdown s).1.jobs → j.uid ∈ s.queued → j.canceled = true)
    ∧ (∀ j, j ∈ (shutdown s).1.jobs → j.uid ∈ s.queued →
        ∀ exec, process_job exec (shutdown s).1 j = ((shutdown s).1, []))
    ∧ (∀ u, some u ∈ s.running → ExtCall.jobStop u ∈ (shutdown s).2) := by
  have hc : ∀ j, j ∈ (shutdown s).1.jobs → j.uid ∈ s.queued → j.canceled = true := by
    intro j hj hq
    simp only [shutdown, List.mem_map] at hj
    obtain ⟨j0, hj0, rfl⟩ := hj
    by_cases hm : mem_nat j0.uid s.queued = true
    · simp [hm]
    · simp only [hm] at hq
      simp only [if_neg (by simp [hm] : ¬ (mem_nat j0.uid s.queued = true))] at hq ⊢
      exact absurd ((mem_nat_iff j0.uid s.queued).mpr hq) (by simp [hm])
  refine ⟨hc, ?_, ?_⟩
  · intro j hj hq exec
    unfold process_job
    rw [hc j hj hq]
    rfl
  · intro u hu
    have hmem : ExtCall.jobStop u ∈ s.running.filterMap (fun o => o.map ExtCall.jobStop) :=
      List.mem_filterMap.mpr ⟨some u, hu, rfl⟩
    simp only [shutdown]
    exact List.mem_append.mpr (Or.inr hmem)

/-- Claim C5 witness. -/
theorem c5_shutdown_spec_witness :
    ({ c5_job1 with canceled := true }).canceled = true
    ∧ process_job c5_exec (shutdown c5_state).1 { c5_job1 with canceled := true }
        = ((shutdown c5_state).1, [])
    ∧ ExtCall.jobStop 2 ∈ (shutdown c5_state).2 :=
  ⟨(c5_shutdown_spec c5_state).1 { c5_job1 with canceled := true } (by decide) (by decide),
   (c5_shutdown_spec c5_state).2.1 { c5_job1 with canceled := true } (by decide) (by decide) c5_exec,
   (c5_shutdown_spec c5_state).2.2 2 (by decide)⟩

/- Lemmas about repeated application of disable_jobs_matching (C7). -/

theorem mark_canceled_uid (u : Nat) (j : MurdockJob) :
    (mark_canceled u j).uid = j.uid := by
  unfold mark_canceled
  split <;> rfl

theorem mark_canceled_pr (u : Nat) (j : MurdockJob) :
    (mark_canceled u j).pr = j.pr := by
  unfold mark_canceled
  split <;> rfl

theorem mark_canceled_ref (u : Nat) (j : MurdockJob) :
    (mark_canceled u j).ref = j.ref := by
  unfold mark_canceled
  split <;> rfl

theorem find_job_map_mark (l : List MurdockJob) (u v : Nat) :
    find_job (l.map (mark_canceled u)) v = (find_job l v).map (mark_canceled u) := by
  induction l with
  | nil => rfl
  | cons j js ih =>
    simp only [List.map_cons, find_job, mark_canceled_uid]
    by_cases h : j.uid = v
    · simp [h]
    · simp [h, ih]

theorem pr_matches_cancel_queued (s : CoreState) (u v n : Nat) :
    pr_matches (cancel_queued_job s u).1 v n = pr_matches s v n := by
  unfold pr_matches get_job cancel_queued_job
  simp only
  rw [find_job_map_mark]
  cases find_job s.jobs v with
  | none => rfl
  | some j => simp [mark_canceled_pr]

theorem ref_matches_cancel_queued (s : CoreState) (u v : Nat) (r : String) :
    ref_matches (cancel_queued_job s u).1 v r = ref_matches s v r := by
  unfold ref_matches get_job cancel_queued_job
  simp only
  rw [find_job_map_mark]
  cases find_job s.jobs v with
  | none => rfl
  | some j => simp [mark_canceled_ref]

theorem cancel_many_running (L : List Nat) :
    ∀ s : CoreState, (cancel_many s L).1.running = s.running := by
  induction L with
  | nil => intro s; rfl
  | cons u rest ih =>
    intro s
    simp only [cancel_many]
    exact ih _

theorem cancel_many_pr_matches (L : List Nat) :
    ∀ (s : CoreState) (v n : Nat), pr_matches (cancel_many s L).1 v n = pr_matches s v n := by
  induction L with
  | nil => intro s v n; rfl
  | cons u rest ih =>
    intro s v n
    simp only [cancel_many]
    rw [ih, pr_matches_cancel_queued]

theorem cancel_many_ref_matches (L : List Nat) :
    ∀ (s : CoreState) (v : Nat) (r : String),
      ref_matches (cancel_many s L).1 v r = ref_matches s v r := by
  induction L with
  | nil => intro s v r; rfl
  | cons u rest ih =>
    intro s v r
    simp only [cancel_many]
    rw [ih, ref_matches_cancel_queued]

theorem filter_filter_bool (l : List Nat) (p q : Nat → Bool) :
    (l.filter q).filter p = l.filter (fun v => q v && p v) := by
  induction l with
  | nil => rfl
  | cons a as ih =>
    cases hq : q a <;> cases hp : p a <;>
      simp [List.filter_cons, hq, hp, ih]

theorem cancel_many_queued (L : List Nat) :
    ∀ s : CoreState,
      (cancel_many s L).1.queued = s.queued.filter (fun v => !(mem_nat v L)) := by
  induction L with
  | nil =>
    intro s
    simp [cancel_many, mem_nat]
  | cons u rest ih =>
    intro s
    simp only [cancel_many]
    rw [ih]
    show (s.queued.filter (fun v => v != u)).filter (fun v => !(mem_nat v rest))
        = s.queued.filter (fun v => !(mem_nat v (u :: rest)))
    rw [filter_filter_bool]
    apply List.filter_congr
    intro v hv
    simp [mem_nat, Bool.not_or, bne]

theorem stop_many_state (L : List Nat) : ∀ s : CoreState, (stop_many s L).1 = s := by
  induction L with
  | nil => intro s; rfl
  | cons u rest ih =>
    intro s
    simp only [stop_many]
    exact ih _

theorem disable_state_eq_cancel (s : CoreState) (j : MurdockJob) :
    (disable_jobs_matching s j).1 = (cancel_many s (queued_matching s j)).1 := by
  simp only [disable_jobs_matching, cancel_queued_jobs_matching, stop_running_jobs_matching]
  exact stop_many_state _ _

theorem filter_covered_nil (l : List Nat) (p : Nat → Bool) (M : List Nat)
    (h : ∀ v, v ∈ l → p v = true → mem_nat v M = true) :
    ((l.filter (fun v => !(mem_nat v M))).filter p) = [] := by
  induction l with
  | nil => rfl
  | cons a as ih =>
    have ih2 := ih (fun v hv hp => h v (List.mem_cons_of_mem a hv) hp)
    cases hm : mem_nat a M with
    | true => simp [List.filter_cons, hm, ih2]
    | false =>
      cases hp : p a with
      | true => exact absurd (h a (List.mem_cons_self a as) hp) (by simp [hm])
      | false => simp [List.filter_cons, hm, hp, ih2]

theorem queued_matching_after_cancel (s : CoreState) (j : MurdockJob) :
    queued_matching (cancel_many s (queued_matching s j)).1 j = [] := by
  have hpr : ∀ p : PullRequestInfo, j.pr = some p →
      search_queued_by_pr_number (cancel_many s (queued_matching s j)).1 p.number = [] := by
    intro p hp
    unfold search_queued_by_pr_number
    rw [cancel_many_queued]
    rw [List.filter_congr
      (fun v _ => cancel_many_pr_matches (queued_matching s j) s v p.number)]
    apply filter_covered_nil
    intro v hv hmatch
    rw [mem_nat_iff]
    unfold queued_matching
    apply List.mem_append.mpr
    left
    rw [hp]
    exact List.mem_filter.mpr ⟨hv, hmatch⟩
  have href : ∀ r : String, j.ref = some r →
      search_queued_by_ref (cancel_many s (queued_matching s j)).1 r = [] := by
    intro r hr
    unfold search_queued_by_ref
    rw [cancel_many_queued]
    rw [List.filter_congr
      (fun v _ => cancel_many_ref_matches (queued_matching s j) s v r)]
    apply filter_covered_nil
    intro v hv hmatch
    rw [mem_nat_iff]
    unfold queued_matching
    apply List.mem_append.mpr
    right
    rw [hr]
    exact List.mem_filter.mpr ⟨hv, hmatch⟩
  show (match j.pr with
        | some p => search_queued_by_pr_number (cancel_many s (queued_matching s j)).1 p.number
        | none => []) ++
       (match j.ref with
        | some r => search_queued_by_ref (cancel_many s (queued_matching s j)).1 r
        | none => []) = []
  cases hjp : j.pr with
  | none =>
    cases hjr : j.ref with
    | none => rfl
    | some r => simp [href r hjr]
  | some p =>
    cases hjr : j.ref with
    | none => simp [hpr p hjp]
    | some r => simp [hpr p hjp, href r hjr]

theorem running_matching_after_cancel (s : CoreState) (L : List Nat) (j : MurdockJob) :
    running_matching (cancel_many s L).1 j = running_matching s j := by
  have h1 : ∀ n, search_running_by_pr_number (cancel_many s L).1 n
      = search_running_by_pr_number s n := by
    intro n
    unfold search_running_by_pr_number
    rw [cancel_many_running]
    exact List.filter_congr (fun v _ => cancel_many_pr_matches L s v n)
  have h2 : ∀ r, search_running_by_ref (cancel_many s L).1 r
      = search_running_by_ref s r := by
    intro r
    unfold search_running_by_ref
    rw [cancel_many_running]
    exact List.filter_congr (fun v _ => cancel_many_ref_matches L s v r)
  unfold running_matching
  cases hjp : j.pr <;> cases hjr : j.ref <;> simp [h1, h2]

/-- Claim C7 amended: the second of two direct applications of
disable_jobs_matching leaves the core state (WaitingSet, RunningSet and
every job flag) exactly as the first left it, and it emits no external
call if and only if no running job matches the probe job; when running
jobs do match, the second application invokes stop on them and posts
their Stopped statuses (and a reload) again, because stopping does not
remove a job from the RunningSet.  The claimed full equivalence of
twice and once therefore holds for the state but not for the emitted
call sequence. -/
theorem disable_noqueued (s1 : CoreState) (j : MurdockJob)
    (hqm : queued_matching s1 j = []) :
    (disable_jobs_matching s1 j).1 = s1
    ∧ (disable_jobs_matching s1 j).2.1
        = (stop_many s1 (running_matching s1 j)).2
          ++ (if (running_matching s1 j).isEmpty then [] else [ExtCall.reload]) := by
  constructor
  · show (stop_many (cancel_many s1 (queued_matching s1 j)).1
        (running_matching (cancel_many s1 (queued_matching s1 j)).1 j)).1 = s1
    rw [stop_many_state, hqm]
    rfl
  · show (cancel_many s1 (queued_matching s1 j)).2
        ++ (stop_many (cancel_many s1 (queued_matching s1 j)).1
            (running_matching (cancel_many s1 (queued_matching s1 j)).1 j)).2
        ++ (if (queued_matching s1 j
              ++ running_matching (cancel_many s1 (queued_matching s1 j)).1 j).isEmpty
            then [] else [ExtCall.reload]) = _
    rw [hqm]
    simp [cancel_many]

theorem c7_disable_jobs_matching_twice (s : CoreState) (j : MurdockJob) :
    (disable_jobs_matching (disable_jobs_matching s j).1 j).1 = (disable_jobs_matching s j).1
    ∧ (running_matching s j = [] →
        (disable_jobs_matching (disable_jobs_matching s j).1 j).2.1 = [])
    ∧ (running_matching s j ≠ [] →
        (disable_jobs_matching (disable_jobs_matching s j).1 j).2.1 ≠ []) := by
  have hqm : queued_matching (disable_jobs_matching s j).1 j = [] := by
    rw [disable_state_eq_cancel]
    exact queued_matching_after_cancel s j
  have hrm : running_matching (disable_jobs_matching s j).1 j = running_matching s j := by
    rw [disable_state_eq_cancel]
    exact running_matching_after_cancel s (queued_matching s j) j
  obtain ⟨h1, h2⟩ := disable_noqueued ((disable_jobs_matching s j).1) j hqm
  refine ⟨h1, ?_, ?_⟩
  · intro h
    rw [h2, hrm, h]
    rfl
  · intro h
    rw [h2, hrm]
    cases hR : running_matching s j with
    | nil => exact absurd hR h
    | cons a as => simp

def c7_target : MurdockJob :=
  { uid := 2, commit := { sha := "s2", message := "m" }, pr := none,
    ref := some "refs/heads/r", fasttracked := false, canceled := false,
    result := "unset", status := "working", start_time := some 0,
    stop_time := none, pr_enable_comments := false }

def c7_state : CoreState :=
  { jobs := [c7_target], queued := [], running := [some 2], queue := [],
    fasttrack_queue := [], clients := [], db := [], cancel_on_update := true }

def c7_probe : MurdockJob :=
  { uid := 9, commit := { sha := "s9", message := "m" }, pr := none,
    ref := some "refs/heads/r", fasttracked := false, canceled := false,
    result := "unset", status := "queued", start_time := none,
    stop_time := none, pr_enable_comments := false }

/-- Claim C7 counterexample: with one running job on the probed ref,
the first application of disable_jobs_matching stops it and posts a
Stopped status; the second application, run directly afterwards, emits
exactly the same stop call, Stopped status and reload again instead of
being a no-op, because the stopped job is still in the RunningSet.  So
applying the operation twice is not equivalent to applying it once with
respect to the sequence of external calls. -/
theorem c7_counterexample :
    (disable_jobs_matching c7_state c7_probe).2.1
      = [ExtCall.jobStop 2, ExtCall.setCommitStatus "s2" "pending" "Stopped",
         ExtCall.reload]
    ∧ (disable_jobs_matching (disable_jobs_matching c7_state c7_probe).1 c7_probe).2.1
      = [ExtCall.jobStop 2, ExtCall.setCommitStatus "s2" "pending" "Stopped",
         ExtCall.reload] := by
  decide

def c7_idle_state : CoreState :=
  { jobs := [], queued := [], running := [none], queue := [],
    fasttrack_queue := [], clients := [], db := [], cancel_on_update := true }

/-- Claim C7 amended witness. -/
theorem c7_disable_jobs_matching_twice_witness :
    (disable_jobs_matching (disable_jobs_matching c7_state c7_probe).1 c7_probe).1
      = (disable_jobs_matching c7_state c7_probe).1
    ∧ (disable_jobs_matching (disable_jobs_matching c7_idle_state c7_probe).1 c7_probe).2.1 = []
    ∧ (disable_jobs_matching (disable_jobs_matching c7_state c7_probe).1 c7_probe).2.1 ≠ [] :=
  ⟨(c7_disable_jobs_matching_twice c7_state c7_probe).1,
   (c7_disable_jobs_matching_twice c7_idle_state c7_probe).2.1 (by decide),
   (c7_disable_jobs_matching_twice c7_state c7_probe).2.2 (by decide)⟩
